import Mathlib

/-!
# Verification of `object_detection.py` (GoogleVissionLabeler)

A shallow embedding in Lean 4 of the pure/structural parts of the script
`src/object_detection.py`, together with proofs and refutations of the
specification's claims about it.

Modelling conventions:
* Python strings are `List Char`; a Python value that may be `None` instead of
  a string is `Option (List Char)` (abbreviated `PyStr`).
* External, fallible calls (`requests.get`, `types.Image(...)`,
  `client.label_detection`) are parameters returning `Except String _`;
  a raised exception is the `.error` branch, which the embedded code handles
  exactly where the Python `try`/`except` does.
* Scores are rationals `ℚ` (the script only moves them around; no float
  arithmetic is performed on them).
* `pandas` dataframe rows are association lists `List (String × PyVal)`,
  matching the dictionaries the script builds before handing them to pandas.
-/

namespace ObjectDetection

/-- A Python string, or `None`. -/
abbrev PyStr := Option (List Char)

/-- Python slicing `s[:stop]` on a string `s`, for a possibly negative `stop`.
A negative `stop` counts from the end (`len + stop`); the result is clamped to
the string, and slicing never raises. -/
def pySliceTo (s : List Char) (stop : Int) : List Char :=
  let stop' : Int := if stop < 0 then (s.length : Int) + stop else stop
  s.take stop'.toNat

/-- `get_url` (src/object_detection.py:89-102):
`url = url_sq[:len(url_sq) - 6] + '.jpg'` inside `try`, with the `except`
branch returning `'unknown'`.  For a string argument the slice is total, so
the `except` branch can only be reached by a non-string argument such as
`None` (where `None[...]` raises `TypeError`), which we model as the `none`
case. -/
def get_url : PyStr → List Char
  | some url_sq => pySliceTo url_sq ((url_sq.length : Int) - 6) ++ ".jpg".toList
  | none => "unknown".toList

/-- Helper: a string ending in `".jpg"` is never the string `"unknown"`
(their last characters differ). -/
theorem append_jpg_ne_unknown (p : List Char) : p ++ ".jpg".toList ≠ "unknown".toList := by
  intro h
  have h' := congrArg List.getLast? h
  simp [List.getLast?_append] at h'

/-- C1 (amended): for a string of length ≥ 6, `get_url` drops the last 6
characters and appends `".jpg"`; for a string of length < 6 it returns the
first `2·len − 6` characters (truncated at 0) followed by `".jpg"` — it does
NOT return `"unknown"` there, because Python string slicing with an
out-of-range bound does not raise. -/
theorem spec_C1 (u : List Char) :
    (6 ≤ u.length → get_url (some u) = u.take (u.length - 6) ++ ".jpg".toList) ∧
    (u.length < 6 → get_url (some u) = u.take (2 * u.length - 6) ++ ".jpg".toList) := by
  constructor
  · intro h
    simp only [get_url, pySliceTo]
    rw [if_neg (by omega)]
    congr 2
    omega
  · intro h
    simp only [get_url, pySliceTo]
    rw [if_pos (by omega)]
    congr 2
    omega

/-- Witness for C1: the spec's own scenario, the thumbnail URL
`"http://x/abc_s.jpg"` normalizes to `"http://x/abc.jpg"`. -/
theorem spec_C1_witness :
    6 ≤ "http://x/abc_s.jpg".toList.length ∧
    get_url (some "http://x/abc_s.jpg".toList) = "http://x/abc.jpg".toList :=
  ⟨by decide, ((spec_C1 "http://x/abc_s.jpg".toList).1 (by decide)).trans (by decide)⟩

/-- Counterexample to C1 as stated: `"ab"` has length < 6, yet
`get_url` returns `".jpg"`, not `"unknown"`. -/
theorem spec_C1_counterexample :
    "ab".toList.length < 6 ∧ get_url (some "ab".toList) ≠ "unknown".toList := by
  decide

/-- C9: for every string input `get_url` returns a string ending in `".jpg"`
(never `"unknown"`): the exception branch is unreachable for string inputs,
and `"unknown"` is returned only for the non-string input `None`. -/
theorem spec_C9 (u : List Char) :
    (∃ p, get_url (some u) = p ++ ".jpg".toList) ∧
    get_url (some u) ≠ "unknown".toList ∧
    get_url none = "unknown".toList :=
  ⟨⟨pySliceTo u ((u.length : Int) - 6), rfl⟩, append_jpg_ne_unknown _, rfl⟩

/-! ## Decimal representation of `Nat`

The script builds dictionary keys with f-strings `f"label_{i + 1}"` /
`f"score_{i + 1}"`.  To reason about those keys we need that the decimal
printing of a natural number (core's `Nat.repr`) is injective, which the
library does not provide; we prove it via a fuel-free recursion `natDigs`
and an evaluation left inverse. -/

/-- Decimal digit characters of `n`, most significant first (`0 ↦ "0"`);
the fuel-free counterpart of core's `Nat.toDigits 10`. -/
def natDigs (n : Nat) : List Char :=
  if h : n / 10 = 0 then [Nat.digitChar (n % 10)]
  else natDigs (n / 10) ++ [Nat.digitChar (n % 10)]
termination_by n
decreasing_by omega

/-- Numeric value of a digit character. -/
def digitVal (c : Char) : Nat := c.toNat - 48

/-- Evaluate a most-significant-first digit string back to a number. -/
def valOfDigits (l : List Char) : Nat := l.foldl (fun a c => a * 10 + digitVal c) 0

theorem valOfDigits_append (l : List Char) (c : Char) :
    valOfDigits (l ++ [c]) = valOfDigits l * 10 + digitVal c := by
  simp [valOfDigits, List.foldl_append]

theorem digitVal_digitChar (k : Nat) (h : k < 10) : digitVal (Nat.digitChar k) = k := by
  interval_cases k <;> decide

theorem valOfDigits_natDigs (n : Nat) : valOfDigits (natDigs n) = n := by
  induction n using natDigs.induct with
  | case1 n h =>
    rw [natDigs, dif_pos h]
    simp [valOfDigits, digitVal_digitChar (n % 10) (by omega)]
    omega
  | case2 n h ih =>
    rw [natDigs, dif_neg h, valOfDigits_append, ih, digitVal_digitChar (n % 10) (by omega)]
    omega

theorem natDigs_injective : Function.Injective natDigs :=
  Function.LeftInverse.injective valOfDigits_natDigs

/-- With enough fuel, core's `Nat.toDigitsCore` in base 10 computes
`natDigs` prepended to the accumulator. -/
theorem toDigitsCore_eq (fuel n : Nat) (acc : List Char) (h : n < fuel) :
    Nat.toDigitsCore 10 fuel n acc = natDigs n ++ acc := by
  induction fuel generalizing n acc with
  | zero => omega
  | succ fuel ih =>
    unfold Nat.toDigitsCore
    by_cases h10 : n / 10 = 0
    · rw [if_pos h10, natDigs, dif_pos h10]
      rfl
    · rw [if_neg h10, ih (n / 10) _ (by omega)]
      conv_rhs => rw [natDigs]
      rw [dif_neg h10]
      simp

theorem Nat_repr_eq (n : Nat) : Nat.repr n = (natDigs n).asString := by
  rw [Nat.repr, Nat.toDigits, toDigitsCore_eq (n + 1) n [] (by omega), List.append_nil]

theorem Nat_repr_injective : Function.Injective Nat.repr := by
  intro a b h
  rw [Nat_repr_eq, Nat_repr_eq] at h
  exact natDigs_injective (congrArg String.data h)

/-! ## Data model: labels and flattened rows -/

/-- A value in a flattened output row: a label description (a Python `str`)
or a confidence score (a Python number). -/
inductive PyVal where
  | str (s : String)
  | num (q : ℚ)
deriving DecidableEq

/-- One label annotation returned by the Vision client: a `description`
string and a confidence `score`. -/
structure Label where
  description : String
  score : ℚ
deriving DecidableEq

/-- A flattened output row: one of the dictionaries the script appends to
`self.df`, as an association list in insertion order. -/
abbrev Row := List (String × PyVal)

/-- The dictionary key `f"label_{i + 1}"` for index `i`. -/
def labelKey (i : Nat) : String := "label_" ++ toString (i + 1)

/-- The dictionary key `f"score_{i + 1}"` for index `i`. -/
def scoreKey (i : Nat) : String := "score_" ++ toString (i + 1)

theorem Nat_repr_data_injective {a b : Nat} (h : (Nat.repr a).data = (Nat.repr b).data) :
    a = b := by
  rw [Nat_repr_eq, Nat_repr_eq] at h
  exact natDigs_injective h

theorem labelKey_injective : Function.Injective labelKey := by
  intro a b h
  have h2 := congrArg String.data h
  simp only [labelKey, String.data_append] at h2
  have h3 := List.append_cancel_left h2
  have h4 := Nat_repr_data_injective h3
  omega

theorem scoreKey_injective : Function.Injective scoreKey := by
  intro a b h
  have h2 := congrArg String.data h
  simp only [scoreKey, String.data_append] at h2
  have h3 := List.append_cancel_left h2
  have h4 := Nat_repr_data_injective h3
  omega

theorem labelKey_ne_scoreKey (i j : Nat) : labelKey i ≠ scoreKey j := by
  intro h
  have h2 := congrArg (fun s => s.data.head?) h
  simp only [labelKey, scoreKey, String.data_append] at h2
  simp at h2

/-- The body of `DfLabeler.store_labels` for one photo
(src/object_detection.py:150-155): the merged dictionary
`{f"label_{i+1}": label_list[i]} ∪ {f"score_{i+1}": scores[i]}`
with `i` ranging over the row's length, in insertion order. -/
def flatten_row (photos : List Label) : Row :=
  (photos.enum.map fun p => (labelKey p.1, PyVal.str p.2.description)) ++
  (photos.enum.map fun p => (scoreKey p.1, PyVal.num p.2.score))

/-- The mutable state of a `DfLabeler` relevant to the claims below:
the accumulator `self.df`, initialised to `[]` in `__init__`
(src/object_detection.py:129). -/
structure DfLabelerState where
  df : List Row
deriving DecidableEq

/-- The state right after `DfLabeler.__init__`: `self.df = []`. -/
def initState : DfLabelerState := ⟨[]⟩

/-- `DfLabeler.store_labels` (src/object_detection.py:143-157): appends one
flattened dictionary per photo row to `self.df` and returns `self.df`. -/
def store_labels (st : DfLabelerState) (labels : List (List Label)) :
    DfLabelerState × List Row :=
  let df := st.df ++ labels.map flatten_row
  (⟨df⟩, df)

theorem flatten_row_map_fst (photos : List Label) :
    (flatten_row photos).map Prod.fst =
      (List.range photos.length).map labelKey ++ (List.range photos.length).map scoreKey := by
  have h1 : photos.enum.map Prod.fst = List.range photos.length := by
    simp [List.enum, List.range_eq_range']
  simp only [flatten_row, List.map_append, List.map_map, ← h1]
  rfl

theorem count_flatten_label (photos : List Label) (i : Nat) (hi : i < photos.length) :
    ((flatten_row photos).map Prod.fst).count (labelKey i) = 1 := by
  rw [flatten_row_map_fst, List.count_append,
    List.count_map_of_injective _ labelKey labelKey_injective]
  have h0 : ((List.range photos.length).map scoreKey).count (labelKey i) = 0 := by
    rw [List.count_eq_zero]
    intro hmem
    obtain ⟨j, _, hje⟩ := List.mem_map.mp hmem
    exact labelKey_ne_scoreKey i j hje.symm
  rw [h0, List.count_eq_one_of_mem (List.nodup_range _) (List.mem_range.mpr hi)]

theorem count_flatten_score (photos : List Label) (i : Nat) (hi : i < photos.length) :
    ((flatten_row photos).map Prod.fst).count (scoreKey i) = 1 := by
  rw [flatten_row_map_fst, List.count_append,
    List.count_map_of_injective _ scoreKey scoreKey_injective]
  have h0 : ((List.range photos.length).map labelKey).count (scoreKey i) = 0 := by
    rw [List.count_eq_zero]
    intro hmem
    obtain ⟨j, _, hje⟩ := List.mem_map.mp hmem
    exact labelKey_ne_scoreKey j i hje
  rw [h0, List.count_eq_one_of_mem (List.nodup_range _) (List.mem_range.mpr hi)]

theorem mem_enum_self (photos : List Label) (i : Nat) (hi : i < photos.length) :
    (i, photos[i]) ∈ photos.enum :=
  List.mk_mem_enum_iff_getElem?.mpr (by simp [hi])

theorem mem_flatten_label (photos : List Label) (i : Nat) (hi : i < photos.length) :
    (labelKey i, PyVal.str photos[i].description) ∈ flatten_row photos :=
  List.mem_append_left _ (List.mem_map.mpr ⟨(i, photos[i]), mem_enum_self photos i hi, rfl⟩)

theorem mem_flatten_score (photos : List Label) (i : Nat) (hi : i < photos.length) :
    (scoreKey i, PyVal.num photos[i].score) ∈ flatten_row photos :=
  List.mem_append_right _ (List.mem_map.mpr ⟨(i, photos[i]), mem_enum_self photos i hi, rfl⟩)

/-- C2: `store_labels` appends, for each row of label results, a flat
mapping holding exactly one `label_i` key and one `score_i` key per index
`1 ≤ i ≤ n` (`n` the row's length), with `label_i` holding the i-th
description and `score_i` the i-th score; a row with an empty label result
contributes a mapping with no keys at all. -/
theorem spec_C2 (st : DfLabelerState) (labels : List (List Label)) (j : Nat)
    (hj : j < labels.length) :
    (store_labels st labels).2.length = st.df.length + labels.length ∧
    (store_labels st labels).2[st.df.length + j]? = some (flatten_row labels[j]) ∧
    (∀ photos : List Label, (flatten_row photos).length = 2 * photos.length) ∧
    flatten_row [] = [] ∧
    ∀ (photos : List Label) (i : Nat) (hi : i < photos.length),
      ((flatten_row photos).map Prod.fst).count (labelKey i) = 1 ∧
      ((flatten_row photos).map Prod.fst).count (scoreKey i) = 1 ∧
      (labelKey i, PyVal.str photos[i].description) ∈ flatten_row photos ∧
      (scoreKey i, PyVal.num photos[i].score) ∈ flatten_row photos := by
  refine ⟨by simp [store_labels], ?_, ?_, rfl, ?_⟩
  · simp only [store_labels]
    rw [List.getElem?_append_right (by omega)]
    simp [hj]
  · intro photos
    simp [flatten_row]
    omega
  · intro photos i hi
    exact ⟨count_flatten_label photos i hi, count_flatten_score photos i hi,
      mem_flatten_label photos i hi, mem_flatten_score photos i hi⟩

/-- Witness for C2 at a concrete one-row, one-label input. -/
theorem spec_C2_witness :
    (store_labels initState [[({ description := "dog", score := 1 } : Label)]]).2.length = 1 :=
  (spec_C2 initState [[{ description := "dog", score := 1 }]] 0 (by decide)).1.trans (by decide)

/-! ## `get_label_counts`: the word-frequency table -/

/-- The `isinstance(elm, str)` test as a projection: a flattened value is
kept only when it is a string. -/
def PyVal.asStr : PyVal → Option String
  | .str s => some s
  | .num _ => none

/-- The `all_words` accumulation in `get_label_counts`
(src/object_detection.py:177-181): the string-typed values of every row's
dictionary, in row order (`list(i.values())` filtered by `isinstance(elm, str)`). -/
def all_words (df : List Row) : List String :=
  df.flatMap fun row => (row.map Prod.snd).filterMap PyVal.asStr

/-- The distinct elements of a list in first-occurrence order: the key
insertion order of `collections.Counter`. -/
def uniqueWords : List String → List String
  | [] => []
  | w :: ws => w :: uniqueWords (ws.filter fun x => x != w)
termination_by l => l.length
decreasing_by
  simp only [List.length_cons]
  exact Nat.lt_succ_of_le (List.length_filter_le _ _)

/-- `Counter(all_words).most_common()` (src/object_detection.py:184): each
distinct word with its total count, sorted by count descending (CPython
implements it as `sorted(items, key=itemgetter(1), reverse=True)`, a stable
sort over the insertion-ordered items). -/
def most_common (ws : List String) : List (String × Nat) :=
  ((uniqueWords ws).map fun w => (w, ws.count w)).mergeSort fun a b => decide (b.2 ≤ a.2)

/-- `DfLabeler.get_label_counts` (src/object_detection.py:170-190): reads
`self.df` (not an argument) and builds the two-column (word, count) table. -/
def get_label_counts (st : DfLabelerState) : List (String × Nat) :=
  most_common (all_words st.df)

theorem mem_uniqueWords (u : String) (ws : List String) :
    u ∈ uniqueWords ws ↔ u ∈ ws := by
  induction ws using uniqueWords.induct with
  | case1 => rw [uniqueWords]
  | case2 w ws ih =>
    rw [uniqueWords]
    simp only [List.mem_cons, ih, List.mem_filter, bne_iff_ne, ne_eq]
    by_cases h : u = w
    · simp [h]
    · simp [h]

theorem uniqueWords_nodup (ws : List String) : (uniqueWords ws).Nodup := by
  induction ws using uniqueWords.induct with
  | case1 => rw [uniqueWords]; exact List.nodup_nil
  | case2 w ws ih =>
    rw [uniqueWords]
    refine List.nodup_cons.mpr ⟨?_, ih⟩
    rw [mem_uniqueWords]
    simp [List.mem_filter]

theorem length_filter_ne (w : String) (ws : List String) :
    ws.length = ws.count w + (ws.filter fun x => x != w).length := by
  induction ws with
  | nil => simp
  | cons x ws ih =>
    by_cases h : x = w
    · subst h
      simp only [List.count_cons_self, List.filter_cons, bne_self_eq_false,
        Bool.false_eq_true, if_false, List.length_cons]
      omega
    · rw [List.count_cons_of_ne (Ne.symm h), List.filter_cons,
        if_pos (by simp [h])]
      simp only [List.length_cons]
      omega

/-- The counts of the distinct words sum to the length of the word list. -/
theorem sum_counts (ws : List String) :
    ((uniqueWords ws).map fun u => ws.count u).sum = ws.length := by
  induction ws using uniqueWords.induct with
  | case1 => rw [uniqueWords]; rfl
  | case2 w ws ih =>
    rw [uniqueWords, List.map_cons, List.sum_cons]
    have hmap : ((uniqueWords (ws.filter fun x => x != w)).map fun u => (w :: ws).count u)
        = (uniqueWords (ws.filter fun x => x != w)).map
            fun u => (ws.filter fun x => x != w).count u := by
      apply List.map_congr_left
      intro u hu
      have hu' := (mem_uniqueWords u _).mp hu
      have hne : u ≠ w := by
        have h2 := (List.mem_filter.mp hu').2
        simpa [bne_iff_ne] using h2
      rw [List.count_cons_of_ne hne]
      exact (List.count_filter (by simp [hne])).symm
    rw [hmap, ih, List.count_cons_self]
    have h3 := length_filter_ne w ws
    simp only [List.length_cons]
    omega

theorem most_common_perm (ws : List String) :
    List.Perm (most_common ws) ((uniqueWords ws).map fun w => (w, ws.count w)) :=
  List.mergeSort_perm _ _

/-- The counts in the word table sum to the number of string-typed values
in the accumulated rows. -/
theorem get_label_counts_sum (st : DfLabelerState) :
    ((get_label_counts st).map Prod.snd).sum = (all_words st.df).length := by
  have hperm := most_common_perm (all_words st.df)
  rw [get_label_counts, List.Perm.sum_eq (hperm.map Prod.snd), List.map_map]
  exact sum_counts _

/-- C3: the word table built by `get_label_counts` has no duplicate words,
covers every string value, its counts sum to the number of string-typed
values across all rows, each count is the true occurrence count, rows are
sorted by descending count, and a corpus with exactly two "dog" labels
yields the entry ("dog", 2). -/
theorem spec_C3 (st : DfLabelerState) :
    ((get_label_counts st).map Prod.fst).Nodup ∧
    (∀ w, w ∈ all_words st.df → w ∈ (get_label_counts st).map Prod.fst) ∧
    ((get_label_counts st).map Prod.snd).sum = (all_words st.df).length ∧
    (∀ p, p ∈ get_label_counts st → p.2 = (all_words st.df).count p.1) ∧
    (get_label_counts st).Pairwise (fun a b => b.2 ≤ a.2) ∧
    ((all_words st.df).count "dog" = 2 → ("dog", 2) ∈ get_label_counts st) := by
  have hperm := most_common_perm (all_words st.df)
  have hfst : ((uniqueWords (all_words st.df)).map
      fun w => (w, (all_words st.df).count w)).map Prod.fst
      = uniqueWords (all_words st.df) := by
    rw [List.map_map]
    exact List.map_id _
  simp only [get_label_counts]
  refine ⟨?_, ?_, ?_, ?_, ?_, ?_⟩
  · rw [List.Perm.nodup_iff (hperm.map Prod.fst), hfst]
    exact uniqueWords_nodup _
  · intro w hw
    rw [List.Perm.mem_iff (hperm.map Prod.fst), hfst, mem_uniqueWords]
    exact hw
  · exact get_label_counts_sum st
  · intro p hp
    have hp' := hperm.mem_iff.mp hp
    obtain ⟨w, _, hw⟩ := List.mem_map.mp hp'
    rw [← hw]
  · have hs := @List.sorted_mergeSort (String × Nat)
      (fun a b => decide (b.2 ≤ a.2))
      (fun a b c hab hbc => by
        simp only [decide_eq_true_eq] at *
        omega)
      (fun a b => by
        rcases Nat.le_total a.2 b.2 with h | h <;> simp [h])
      ((uniqueWords (all_words st.df)).map fun w => (w, (all_words st.df).count w))
    exact hs.imp fun h => of_decide_eq_true h
  · intro hdog
    have hmem : "dog" ∈ all_words st.df :=
      List.count_pos_iff.mp (by omega)
    rw [List.Perm.mem_iff hperm]
    refine List.mem_map.mpr ⟨"dog", (mem_uniqueWords _ _).mpr hmem, ?_⟩
    rw [hdog]

/-- Witness for C3: a two-row corpus where both rows carry the label "dog";
the table contains ("dog", 2). -/
theorem spec_C3_witness :
    ("dog", 2) ∈ get_label_counts
      ⟨[[(labelKey 0, PyVal.str "dog"), (scoreKey 0, PyVal.num 1)],
        [(labelKey 0, PyVal.str "dog"), (scoreKey 0, PyVal.num 1)]]⟩ :=
  (spec_C3 ⟨[[(labelKey 0, PyVal.str "dog"), (scoreKey 0, PyVal.num 1)],
        [(labelKey 0, PyVal.str "dog"), (scoreKey 0, PyVal.num 1)]]⟩).2.2.2.2.2
    (by decide)

/-- C10: `store_labels` appends to the persistent accumulator `self.df`
without clearing it and returns that accumulator, so a second call returns
both calls' rows; and `get_label_counts` reads `self.df`, so its counts
cover every row accumulated so far. -/
theorem spec_C10 (l1 l2 : List (List Label)) :
    (store_labels initState l1).2 = l1.map flatten_row ∧
    (store_labels (store_labels initState l1).1 l2).2
      = l1.map flatten_row ++ l2.map flatten_row ∧
    (store_labels (store_labels initState l1).1 l2).1.df
      = (store_labels (store_labels initState l1).1 l2).2 ∧
    ((get_label_counts (store_labels (store_labels initState l1).1 l2).1).map Prod.snd).sum
      = (all_words (l1.map flatten_row)).length + (all_words (l2.map flatten_row)).length := by
  refine ⟨by simp [store_labels, initState], by simp [store_labels, initState], rfl, ?_⟩
  rw [get_label_counts_sum]
  show (all_words (([] ++ l1.map flatten_row) ++ l2.map flatten_row)).length = _
  rw [List.nil_append, all_words, List.flatMap_append, List.length_append]
  rfl

/-! ## `update_data_df`: joining label columns onto the original table -/

/-- `DfLabeler.update_data_df` (src/object_detection.py:159-168):
`self.data_df.join(pd.DataFrame(df))` — pandas' default left join on the
positional index: row `i` of the original table keeps all its column values
and is extended with the columns of the i-th flattened row when it exists
(rows past the end of `df` gain no label values, modelled as `[]`). -/
def update_data_df (data_df : List Row) (df : List Row) : List Row :=
  data_df.enum.map fun p => p.2 ++ df.getD p.1 []

/-- C4: with one flattened mapping per input row, the joined table has
exactly as many rows as the input table, in the same order, and each output
row starts with all of the corresponding input row's column values
unchanged. -/
theorem spec_C4 (data_df df : List Row) (h : df.length = data_df.length) :
    (update_data_df data_df df).length = data_df.length ∧
    ∀ (i : Nat), i < data_df.length →
      (update_data_df data_df df).getD i [] = data_df.getD i [] ++ df.getD i [] := by
  constructor
  · simp [update_data_df]
  · intro i hi
    simp [update_data_df, List.getD_eq_getElem?_getD, List.getElem?_map, List.enum,
      List.getElem?_eq_getElem hi]

/-- Witness for C4 at a concrete one-row table and one label mapping. -/
theorem spec_C4_witness :
    (update_data_df [[("url", PyVal.str "u")]] [[(labelKey 0, PyVal.str "dog")]]).getD 0 []
      = ([[("url", PyVal.str "u")]] : List Row).getD 0 []
        ++ ([[(labelKey 0, PyVal.str "dog")]] : List Row).getD 0 [] :=
  (spec_C4 [[("url", PyVal.str "u")]] [[(labelKey 0, PyVal.str "dog")]] rfl).2 0 (by decide)

/-! ## `get_labels_from_df`: one label result per row -/

/-- The url list built in `DfLabeler.__init__`
(src/object_detection.py:125-128): the URL column passed through `get_url`
elementwise when the `url_sq` toggle is set, the raw column otherwise. -/
def mkUrls (url_col : List PyStr) (url_sq : Bool) : List PyStr :=
  if url_sq then url_col.map fun u => some (get_url u) else url_col

/-- `DfLabeler.get_labels_from_df` (src/object_detection.py:132-141): a
sequential list comprehension calling `get_label_from_image` on each url in
order. -/
def get_labels_from_df (label_from_image : PyStr → List Label)
    (urls : List PyStr) : List (List Label) :=
  urls.map label_from_image

/-- C6: `get_labels_from_df` produces exactly one label result per input
row, in row order, processing the list head-first one element at a time,
with `get_url` applied to the i-th URL exactly when the thumbnail toggle is
set. -/
theorem spec_C6 (label_from_image : PyStr → List Label) (url_col : List PyStr)
    (url_sq : Bool) :
    (get_labels_from_df label_from_image (mkUrls url_col url_sq)).length = url_col.length ∧
    (∀ (i : Nat) (hi : i < url_col.length),
      (get_labels_from_df label_from_image (mkUrls url_col url_sq))[i]?
        = some (label_from_image
            (if url_sq then some (get_url url_col[i]) else url_col[i]))) ∧
    (∀ u us, get_labels_from_df label_from_image (u :: us)
        = label_from_image u :: get_labels_from_df label_from_image us) := by
  refine ⟨?_, ?_, fun u us => rfl⟩
  · cases url_sq <;> simp [get_labels_from_df, mkUrls]
  · intro i hi
    cases url_sq <;>
      simp [get_labels_from_df, mkUrls, List.getElem?_map, List.getElem?_eq_getElem hi]

/-- Witness for C6 at a concrete single-url column with the toggle set. -/
theorem spec_C6_witness :
    (get_labels_from_df (fun _ => []) (mkUrls [some "a".toList] true))[0]?
      = some ((fun _ => ([] : List Label)) (some (get_url (some "a".toList)))) :=
  (spec_C6 (fun _ => []) [some "a".toList] true).2.1 0 (by decide)

/-! ## `ImageLabeler`: fetching and labelling one image

The external calls are parameters; a raised Python exception is the
`.error` branch of an `Except`, handled exactly where the `try`/`except`
blocks of the source handle it. -/

/-- A `requests.get` response: a status code and the body bytes.  The
script never inspects the status. -/
structure HttpResponse where
  status : Nat
  content : List Nat
deriving DecidableEq

/-- The classifier's input wrapper `types.Image(content=...)`. -/
structure VisionImage where
  content : List Nat
deriving DecidableEq

/-- `ImageLabeler._load_image` (src/object_detection.py:59-71): `httpGet`
models `requests.get` (no timeout, no retry; `.error` = raised exception),
`mkImage` models reading the body and wrapping it in `types.Image`
(`.error` = raised).  Any exception inside the `try` yields `image = None`;
a non-raising response of any status is wrapped, there is no status-code
check. -/
def load_image (httpGet : PyStr → Except String HttpResponse)
    (mkImage : List Nat → Except String VisionImage) (photo_url : PyStr) :
    Option VisionImage :=
  match httpGet photo_url with
  | .error _ => none
  | .ok response =>
    match mkImage response.content with
    | .error _ => none
    | .ok image => some image

/-- `ImageLabeler.get_label_from_image` (src/object_detection.py:73-86):
loads the image (possibly `None`), calls `label_detection` on it
(`labelDetect`; `.error` = raised exception, including the failure a `None`
image causes downstream) and reads `label_annotations`; on any exception it
returns the empty list. -/
def get_label_from_image (httpGet : PyStr → Except String HttpResponse)
    (mkImage : List Nat → Except String VisionImage)
    (labelDetect : Option VisionImage → Except String (List Label))
    (photo_url : PyStr) : List Label :=
  match labelDetect (load_image httpGet mkImage photo_url) with
  | .ok labels => labels
  | .error _ => []

/-- C5: `get_label_from_image` never propagates an error: its only
outcomes are the annotations of a successful classification call, or the
empty list when the call (including on a null image) raises — the empty
list is the sole error channel. -/
theorem spec_C5 (httpGet : PyStr → Except String HttpResponse)
    (mkImage : List Nat → Except String VisionImage)
    (labelDetect : Option VisionImage → Except String (List Label))
    (photo_url : PyStr) :
    (∃ labels, labelDetect (load_image httpGet mkImage photo_url) = Except.ok labels ∧
      get_label_from_image httpGet mkImage labelDetect photo_url = labels) ∨
    (∃ e, labelDetect (load_image httpGet mkImage photo_url) = Except.error e ∧
      get_label_from_image httpGet mkImage labelDetect photo_url = []) := by
  cases h : labelDetect (load_image httpGet mkImage photo_url) with
  | ok labels => exact Or.inl ⟨labels, rfl, by simp [get_label_from_image, h]⟩
  | error e => exact Or.inr ⟨e, rfl, by simp [get_label_from_image, h]⟩

/-- C7: `_load_image` returns `None` exactly when retrieval or wrapping
raises, never raising itself; and it performs no status-code check — two
non-raising responses with the same body but any two statuses produce the
same wrapped image. -/
theorem spec_C7 (httpGet : PyStr → Except String HttpResponse)
    (mkImage : List Nat → Except String VisionImage) (photo_url : PyStr) :
    ((∃ e, httpGet photo_url = Except.error e ∧
        load_image httpGet mkImage photo_url = none) ∨
     (∃ r, httpGet photo_url = Except.ok r ∧
       ((∃ e, mkImage r.content = Except.error e ∧
          load_image httpGet mkImage photo_url = none) ∨
        (∃ image, mkImage r.content = Except.ok image ∧
          load_image httpGet mkImage photo_url = some image)))) ∧
    (∀ (s₁ s₂ : Nat) (body : List Nat),
      load_image (fun _ => Except.ok ⟨s₁, body⟩) mkImage photo_url
        = load_image (fun _ => Except.ok ⟨s₂, body⟩) mkImage photo_url) := by
  constructor
  · cases h : httpGet photo_url with
    | error e => exact Or.inl ⟨e, rfl, by simp [load_image, h]⟩
    | ok r =>
      refine Or.inr ⟨r, rfl, ?_⟩
      cases h2 : mkImage r.content with
      | error e => exact Or.inl ⟨e, rfl, by simp [load_image, h, h2]⟩
      | ok image => exact Or.inr ⟨image, rfl, by simp [load_image, h, h2]⟩
  · intro s₁ s₂ body
    rfl

/-! ## The cost estimate -/

/-- The cost estimate in `get_labels_from_df` (src/object_detection.py:137):
`cost = len(self.urls) // 1000 * 1.5` — integer floor division first, then
multiplication by the float `1.5` (exact in binary floating point for any
realistic row count, so modelled in `ℚ`). -/
def estimated_cost (n : Nat) : ℚ := ((n / 1000 : Nat) : ℚ) * (3 / 2)

/-- Counterexample to C8 as stated: the reported cost is not proportional
to the row count — no single rate `c` satisfies `cost n = c * n`, since 999
rows cost $0 while 1000 rows cost $1.5. -/
theorem spec_C8_counterexample :
    ¬ ∃ c : ℚ, ∀ n : Nat, estimated_cost n = c * n := by
  rintro ⟨c, hc⟩
  have h1 := hc 999
  have h2 := hc 1000
  norm_num [estimated_cost] at h1 h2
  rw [h1] at h2
  norm_num at h2

/-- C8 (amended): the reported cost is `⌊n / 1000⌋ · $1.5`, a step function
of the row count: it is bounded between `1.5·(n−999)/1000` and `1.5·n/1000`
and is exactly `1.5·k` at `n = 1000·k`, but it is not linear in `n`
(`spec_C8_counterexample`). -/
theorem spec_C8 (n k : Nat) :
    (3 / 2 : ℚ) * ((n : ℚ) - 999) / 1000 ≤ estimated_cost n ∧
    estimated_cost n ≤ (3 / 2 : ℚ) * (n : ℚ) / 1000 ∧
    estimated_cost (1000 * k) = (3 / 2 : ℚ) * (k : ℚ) := by
  have hd : n / 1000 * 1000 ≤ n := Nat.div_mul_le_self n 1000
  have hd2 : n ≤ n / 1000 * 1000 + 999 := by omega
  have hq1 : ((n / 1000 : Nat) : ℚ) * 1000 ≤ (n : ℚ) := by exact_mod_cast hd
  have hq2 : (n : ℚ) ≤ ((n / 1000 : Nat) : ℚ) * 1000 + 999 := by exact_mod_cast hd2
  refine ⟨?_, ?_, ?_⟩
  · rw [estimated_cost]
    linarith
  · rw [estimated_cost]
    linarith
  · rw [estimated_cost, Nat.mul_div_cancel_left k (by norm_num)]
    ring

end ObjectDetection
